import Mathlib

/-!
Verification of the walk-forward backtest engine of the crypto-bot
repository.  The definitions below are a shallow embedding of the core of
the file testing.py: the position sizer calc_lots_from_risk, the swing
locator find_recent_swings, the fib-touch signal loop, the per-trade
forward scan with the simple trailing stop, and the outer engine loop
run_backtest with its daily trade-count and daily loss-stop gates.
Prices and indicator values are modelled as exact rationals, timestamps
and calendar dates as natural numbers, and the pandas NaN produced for an
undefined RSI as the none value of an option (a NaN comparison in Python
is false, matching the option test).  Definitions named after functions
of the source keep the source names.
-/

namespace CryptoBot

/-- Risk fraction of equity used per trade (config RISK_PER_TRADE = 0.06). -/
def RISK_PER_TRADE : ℚ := 6 / 100

/-- Reward multiple (config RR = 1.8). -/
def RR : ℚ := 9 / 5

/-- RSI oversold threshold (config RSI_OVERSOLD = 30). -/
def RSI_OVERSOLD : ℚ := 30

/-- RSI overbought threshold (config RSI_OVERBOUGHT = 70). -/
def RSI_OVERBOUGHT : ℚ := 70

/-- ATR averaging period (config ATR_PERIOD = 14). -/
def ATR_PERIOD : ℕ := 14

/-- Slow EMA span (config EMA_SLOW = 200); the engine warms up this many bars. -/
def EMA_SLOW : ℕ := 200

/-- Configured fib retracement levels, in list order (config FIB_LEVELS). -/
def FIB_LEVELS : List ℚ := [618 / 1000, 1 / 2]

/-- Relative tolerance of a fib touch (config FIB_TOL_PCT = 0.002). -/
def FIB_TOL_PCT : ℚ := 2 / 1000

/-- Swing lookback parameter (config SWING_LOOKBACK = 200). -/
def SWING_LOOKBACK : ℕ := 200

/-- Daily trade cap (config DAILY_MAX_TRADES = 5). -/
def DAILY_MAX_TRADES : ℕ := 5

/-- Daily loss-stop fraction of initial equity (config DAILY_MAX_LOSS_PCT = 0.10). -/
def DAILY_MAX_LOSS_PCT : ℚ := 1 / 10

/-- Minimum lot (config MIN_LOT = 0.001). -/
def MIN_LOT : ℚ := 1 / 1000

/-- Lot quantum (config LOT_STEP = 0.001). -/
def LOT_STEP : ℚ := 1 / 1000

/-- One input row of the dataframe handed to run_backtest: the OHLC bar
fields used by the engine plus the indicator columns added by
add_indicators.  The field day is the calendar date of the timestamp dt;
an undefined (NaN) RSI is the value none. -/
structure Row where
  dt : ℕ
  day : ℕ
  high : ℚ
  low : ℚ
  close : ℚ
  rsi : Option ℚ
  ema50 : ℚ
  ema200 : ℚ
  atr : ℚ
  deriving DecidableEq, Inhabited

/-- touched_level of testing.py: the close is within the relative
tolerance band of a fib level price. -/
def touched_level (price level_val : ℚ) : Bool :=
  decide (|price - level_val| ≤ level_val * FIB_TOL_PCT)

/-- compute_fib_levels of testing.py: the association of each configured
ratio with its retracement price, in FIB_LEVELS order (the Python dict
iterates in insertion order). -/
def compute_fib_levels (swing_high swing_low : ℚ) : List (ℚ × ℚ) :=
  FIB_LEVELS.map (fun lvl => (lvl, swing_high - (swing_high - swing_low) * lvl))

/-- Round half to even on the integers below a rational, the rounding used
by the Python builtin round. -/
def roundHalfEven (x : ℚ) : ℤ :=
  let n := ⌊x⌋
  let r := x - n
  if r < 1 / 2 then n
  else if 1 / 2 < r then n + 1
  else if n % 2 = 0 then n else n + 1

/-- The Python round(x, 6) on exact rationals. -/
def pyRound6 (x : ℚ) : ℚ :=
  (roundHalfEven (x * 1000000) : ℚ) / 1000000

/-- calc_lots_from_risk of testing.py: risk amount over stop distance,
floored to LOT_STEP and clamped below by LOT_STEP, with the 0.001
fallback when the stop distance is non-positive. -/
def calc_lots_from_risk (equity entry sl : ℚ) : ℚ :=
  let risk_amount := equity * RISK_PER_TRADE
  let price_diff := |entry - sl|
  if price_diff ≤ 0 then 1 / 1000
  else
    let lots := risk_amount / price_diff
    let steps : ℤ := ⌊lots / LOT_STEP⌋
    let lots_adj := max LOT_STEP ((steps : ℚ) * LOT_STEP)
    pyRound6 lots_adj

/-- Pair each element of a list with its absolute index, starting at a
given offset. -/
def windowAux (start : ℕ) : List Row → List (ℕ × Row)
  | [] => []
  | r :: rest => (start, r) :: windowAux (start + 1) rest

/-- The slice df.iloc[max(0, idx - lookback) : idx + 1] together with the
absolute dataframe index of each row. -/
def window (df : List Row) (idx lookback : ℕ) : List (ℕ × Row) :=
  windowAux (idx - lookback) ((df.drop (idx - lookback)).take (idx + 1 - (idx - lookback)))

/-- Fold step of the pandas idxmax: keep the first index attaining the
running maximum, replace only on a strictly greater value. -/
def idxmaxAux (f : Row → ℚ) (acc : ℕ × ℚ) : List (ℕ × Row) → ℕ × ℚ
  | [] => acc
  | (i, r) :: rest => idxmaxAux f (if acc.2 < f r then (i, f r) else acc) rest

/-- The pandas idxmax over an indexed slice, paired with the maximum value. -/
def idxmax (f : Row → ℚ) : List (ℕ × Row) → Option (ℕ × ℚ)
  | [] => none
  | (i, r) :: rest => some (idxmaxAux f (i, f r) rest)

/-- Fold step of the pandas idxmin: keep the first index attaining the
running minimum, replace only on a strictly smaller value. -/
def idxminAux (f : Row → ℚ) (acc : ℕ × ℚ) : List (ℕ × Row) → ℕ × ℚ
  | [] => acc
  | (i, r) :: rest => idxminAux f (if f r < acc.2 then (i, f r) else acc) rest

/-- The pandas idxmin over an indexed slice, paired with the minimum value. -/
def idxmin (f : Row → ℚ) : List (ℕ × Row) → Option (ℕ × ℚ)
  | [] => none
  | (i, r) :: rest => some (idxminAux f (i, f r) rest)

/-- find_recent_swings of testing.py: over the slice from
max(0, idx - lookback) to idx inclusive, the maximum high with its index
and the minimum low with its index; none when the slice is empty. -/
def find_recent_swings (df : List Row) (idx lookback : ℕ) :
    Option (ℚ × ℕ × ℚ × ℕ) :=
  match idxmax (fun r => r.high) (window df idx lookback),
        idxmin (fun r => r.low) (window df idx lookback) with
  | some (hi, hv), some (li, lv) => some (hv, hi, lv, li)
  | _, _ => none

/-- Trade direction. -/
inductive Side where
  | BUY
  | SELL
  deriving DecidableEq, Inhabited

/-- A signal produced by the fib-touch loop of run_backtest. -/
structure Signal where
  side : Side
  entry : ℚ
  sl : ℚ
  tp : ℚ
  lvl : ℚ
  deriving DecidableEq, Inhabited

/-- The BUY entry condition of run_backtest: RSI defined and at most the
oversold threshold, and fast EMA above slow EMA (a NaN RSI compares
false). -/
def buyCond (rsi : Option ℚ) (ema50 ema200 : ℚ) : Bool :=
  match rsi with
  | none => false
  | some r => decide (r ≤ RSI_OVERSOLD) && decide (ema200 < ema50)

/-- The SELL entry condition of run_backtest: RSI defined and at least the
overbought threshold, and fast EMA below slow EMA. -/
def sellCond (rsi : Option ℚ) (ema50 ema200 : ℚ) : Bool :=
  match rsi with
  | none => false
  | some r => decide (RSI_OVERBOUGHT ≤ r) && decide (ema50 < ema200)

/-- The BUY signal built by run_backtest at a touched level. -/
def mkBuySignal (price swing_low atr lvl : ℚ) : Signal :=
  let sl := swing_low - (1 / 2) * atr
  ⟨Side.BUY, price, sl, price + (price - sl) * RR, lvl⟩

/-- The SELL signal built by run_backtest at a touched level. -/
def mkSellSignal (price swing_high atr lvl : ℚ) : Signal :=
  let sl := swing_high + (1 / 2) * atr
  ⟨Side.SELL, price, sl, price - (sl - price) * RR, lvl⟩

/-- The fib-touch loop of run_backtest over the level list: at a touched
level, the BUY condition is tried, then the SELL condition; if neither
holds the loop moves to the next level. -/
def checkSignal (price swing_high swing_low atr : ℚ) (rsi : Option ℚ)
    (ema50 ema200 : ℚ) : List (ℚ × ℚ) → Option Signal
  | [] => none
  | (lvl, lvl_val) :: rest =>
    if touched_level price lvl_val then
      if buyCond rsi ema50 ema200 then some (mkBuySignal price swing_low atr lvl)
      else if sellCond rsi ema50 ema200 then some (mkSellSignal price swing_high atr lvl)
      else checkSignal price swing_high swing_low atr rsi ema50 ema200 rest
    else checkSignal price swing_high swing_low atr rsi ema50 ema200 rest

/-- Mutable state of the forward scan of one trade: the current stop and
the trailing-activation flag. -/
structure ScanState where
  target_sl : ℚ
  trailing_active : Bool
  deriving DecidableEq, Inhabited

/-- Exit label of a closed trade. -/
inductive ExitReason where
  | TP
  | SL
  | NO_HIT
  deriving DecidableEq, Inhabited

/-- Exit data produced when a scanned bar closes the trade. -/
structure ExitInfo where
  price : ℚ
  time : ℕ
  reason : ExitReason
  pnl : ℚ
  deriving DecidableEq, Inhabited

/-- Unrealized profit of the open trade at the close of a scanned bar. -/
def unrealProfit (side : Side) (entry lots : ℚ) (r : Row) : ℚ :=
  match side with
  | Side.BUY => (r.close - entry) * lots
  | Side.SELL => (entry - r.close) * lots

/-- The per-bar exit checks of the forward scan in run_backtest, in source
order.  BUY: TP on low at most the target, then the guarded stop branch
for a stop above entry on high at least the stop, then SL on low at most
the stop.  SELL: TP on high at least the target, then SL on low at most
the stop. -/
def exitCheck (side : Side) (entry tp lots : ℚ) (st : ScanState) (r : Row) :
    Option ExitInfo :=
  match side with
  | Side.BUY =>
    if r.low ≤ tp then some ⟨tp, r.dt, ExitReason.TP, (tp - entry) * lots⟩
    else if st.target_sl ≤ r.high ∧ entry < st.target_sl then
      some ⟨st.target_sl, r.dt, ExitReason.SL, (st.target_sl - entry) * lots⟩
    else if r.low ≤ st.target_sl then
      some ⟨st.target_sl, r.dt, ExitReason.SL, (st.target_sl - entry) * lots⟩
    else none
  | Side.SELL =>
    if tp ≤ r.high then some ⟨tp, r.dt, ExitReason.TP, (entry - tp) * lots⟩
    else if r.low ≤ st.target_sl then
      some ⟨st.target_sl, r.dt, ExitReason.SL, (entry - st.target_sl) * lots⟩
    else none

/-- The simple trailing adjustment of run_backtest, applied after a bar
that did not exit: once unrealized profit at the bar close reaches the
risk measured from the current stop, and trailing is not yet active, move
the stop to the entry price and set the flag. -/
def trailUpdate (side : Side) (entry lots : ℚ) (st : ScanState) (r : Row) :
    ScanState :=
  let unreal := unrealProfit side entry lots r
  let initial_risk := |entry - st.target_sl| * lots
  if st.trailing_active = false ∧ initial_risk ≤ unreal then
    { target_sl := entry, trailing_active := true }
  else st

/-- The forward scan of run_backtest over the list of bars after the
signal bar: stop at the first bar whose exit check fires, otherwise apply
the trailing adjustment and continue; return the scan state at the end
together with the exit, if any. -/
def scanTrade (side : Side) (entry tp lots : ℚ) :
    ScanState → List Row → ScanState × Option ExitInfo
  | st, [] => (st, none)
  | st, r :: rest =>
    match exitCheck side entry tp lots st r with
    | some e => (st, some e)
    | none => scanTrade side entry tp lots (trailUpdate side entry lots st r) rest

/-- The bars visited by the forward scan for a signal at index idx: the
Python range from idx + 1 to min(len(df), idx + 1000) exclusive. -/
def scanRows (df : List Row) (idx : ℕ) : List Row :=
  (df.drop (idx + 1)).take 999

/-- The dataframe index read for the timeout exit:
min(len(df) - 1, idx + 999). -/
def timeoutIndex (df : List Row) (idx : ℕ) : ℕ :=
  min (df.length - 1) (idx + 999)

/-- One record of the trade log of run_backtest.  The field sl is the
final stop (after any trailing move); entry_day is the calendar date of
the entry bar, used by the daily loss bookkeeping. -/
structure Trade where
  entry_time : ℕ
  entry_day : ℕ
  exit_time : ℕ
  side : Side
  entry : ℚ
  sl : ℚ
  tp : ℚ
  lots : ℚ
  pnl : ℚ
  reason : ExitReason
  deriving DecidableEq, Inhabited

/-- The full resolution of one accepted signal in run_backtest: run the
forward scan; on an exit build the trade from it, otherwise close at the
close of the bar at the timeout index with reason NO_HIT. -/
def simulate_trade (df : List Row) (idx : ℕ) (sig : Signal) (lots : ℚ)
    (entryRow : Row) : Trade :=
  let res := scanTrade sig.side sig.entry sig.tp lots ⟨sig.sl, false⟩ (scanRows df idx)
  match res.2 with
  | some e =>
    ⟨entryRow.dt, entryRow.day, e.time, sig.side, sig.entry, res.1.target_sl,
      sig.tp, lots, e.pnl, e.reason⟩
  | none =>
    let last := df.getD (timeoutIndex df idx) default
    let pnl := match sig.side with
      | Side.BUY => (last.close - sig.entry) * lots
      | Side.SELL => (sig.entry - last.close) * lots
    ⟨entryRow.dt, entryRow.day, last.dt, sig.side, sig.entry, res.1.target_sl,
      sig.tp, lots, pnl, ExitReason.NO_HIT⟩

/-- The engine state threaded through the outer loop of run_backtest.
The two Python dicts are association lists where the most recent binding
of a key shadows older ones. -/
structure EngineState where
  equity : ℚ
  equity_curve : List (ℕ × ℚ)
  trades : List Trade
  daily_trades : List (ℕ × ℕ)
  daily_loss_stop : List (ℕ × Bool)
  last_trade_day : Option ℕ
  deriving DecidableEq, Inhabited

/-- Lookup in the daily trade counter with the Python get default 0. -/
def lookupNat : List (ℕ × ℕ) → ℕ → ℕ
  | [], _ => 0
  | (k, v) :: rest, d => if k = d then v else lookupNat rest d

/-- Lookup in the daily loss-stop flags with the Python get default false. -/
def lookupBool : List (ℕ × Bool) → ℕ → Bool
  | [], _ => false
  | (k, v) :: rest, d => if k = d then v else lookupBool rest d

/-- A bar that produces no trade: append a flat equity sample. -/
def flatStep (r : Row) (s : EngineState) : EngineState :=
  { s with equity_curve := s.equity_curve ++ [(r.dt, s.equity)] }

/-- The daily reset of run_backtest: on a bar whose date differs from
last_trade_day, zero the date counter, clear the date loss-stop flag and
record the date. -/
def dailyReset (day : ℕ) (s : EngineState) : EngineState :=
  if s.last_trade_day ≠ some day then
    { s with daily_trades := (day, 0) :: s.daily_trades,
             daily_loss_stop := (day, false) :: s.daily_loss_stop,
             last_trade_day := some day }
  else s

/-- Number of logged trades entered on a given date. -/
def countDay (trades : List Trade) (d : ℕ) : ℕ :=
  (trades.filter (fun t => t.entry_day == d)).length

/-- The profits of the logged trades entered on a given date, in log
order. -/
def dayPnlList (trades : List Trade) (d : ℕ) : List ℚ :=
  (trades.filter (fun t => t.entry_day == d)).map (fun t => t.pnl)

/-- Cumulative realized profit of the trades entered on a given date, the
day_pnl sum of run_backtest. -/
def dayPnl (trades : List Trade) (d : ℕ) : ℚ :=
  (dayPnlList trades d).sum

/-- The trade-producing tail of one engine iteration: resolve the trade,
realize its profit into equity, append the equity sample at the exit
time, log the trade, bump the date counter and set the date loss-stop
flag when the cumulative date loss reaches the threshold. -/
def tradeStep (df : List Row) (initial_equity : ℚ) (idx : ℕ) (row : Row)
    (day : ℕ) (sig : Signal) (lots : ℚ) (s : EngineState) : EngineState :=
  let tr := simulate_trade df idx sig lots row
  let equity := s.equity + tr.pnl
  let trades := s.trades ++ [tr]
  let daily_trades := (day, lookupNat s.daily_trades day + 1) :: s.daily_trades
  let daily_loss_stop :=
    if dayPnl trades day ≤ -(initial_equity * DAILY_MAX_LOSS_PCT) then
      (day, true) :: s.daily_loss_stop
    else s.daily_loss_stop
  { equity := equity,
    equity_curve := s.equity_curve ++ [(tr.exit_time, equity)],
    trades := trades,
    daily_trades := daily_trades,
    daily_loss_stop := daily_loss_stop,
    last_trade_day := s.last_trade_day }

/-- One iteration of the outer loop of run_backtest for the bar at a given
index: warmup skip, daily reset, the loss-stop gate, the trade-count
gate, swing lookup, the fib-touch signal loop, sizing with the
non-positive guard, and finally the trade resolution. -/
def stepBar (df : List Row) (initial_equity : ℚ) (idx : ℕ) (row : Row)
    (s : EngineState) : EngineState :=
  if idx < ATR_PERIOD ∨ idx < EMA_SLOW then flatStep row s
  else
    let day := row.day
    let s1 := dailyReset day s
    if lookupBool s1.daily_loss_stop day then flatStep row s1
    else if DAILY_MAX_TRADES ≤ lookupNat s1.daily_trades day then flatStep row s1
    else
      match find_recent_swings df idx SWING_LOOKBACK with
      | none => flatStep row s1
      | some (swing_high, _, swing_low, _) =>
        match checkSignal row.close swing_high swing_low row.atr row.rsi
            row.ema50 row.ema200 (compute_fib_levels swing_high swing_low) with
        | none => flatStep row s1
        | some sig =>
          let lots := calc_lots_from_risk s1.equity sig.entry sig.sl
          if lots ≤ 0 then flatStep row s1
          else tradeStep df initial_equity idx row day sig lots s1

/-- The outer loop of run_backtest over the remaining rows, carrying the
running index. -/
def runAux (df : List Row) (initial_equity : ℚ) :
    ℕ → List Row → EngineState → EngineState
  | _, [], s => s
  | idx, r :: rest, s =>
    runAux df initial_equity (idx + 1) rest (stepBar df initial_equity idx r s)

/-- The initial engine state. -/
def initState (initial_equity : ℚ) : EngineState :=
  ⟨initial_equity, [], [], [], [], none⟩

/-- run_backtest of testing.py over a dataframe of rows. -/
def run_backtest (df : List Row) (initial_equity : ℚ) : EngineState :=
  runAux df initial_equity 0 df (initState initial_equity)

/-- The engine state after processing only the first n bars. -/
def runUpTo (df : List Row) (initial_equity : ℚ) (n : ℕ) : EngineState :=
  runAux df initial_equity 0 (df.take n) (initState initial_equity)

/-- Total realized profit of a trade log. -/
def sumPnl (trades : List Trade) : ℚ :=
  (trades.map (fun t => t.pnl)).sum

/-- The SELL forward scan exactly as the specification words it: within
each bar the TP check comes first and fires on high at least the target,
exiting at the target; then the SL check fires on high at least the stop,
exiting at the stop; a bar that fires neither receives the trailing
adjustment.  This definition follows the specification text, to be
compared with the scan embedded from the source. -/
def sellScanClaimed (entry tp lots : ℚ) :
    ScanState → List Row → ScanState × Option ExitInfo
  | st, [] => (st, none)
  | st, r :: rest =>
    if tp ≤ r.high then (st, some ⟨tp, r.dt, ExitReason.TP, (entry - tp) * lots⟩)
    else if st.target_sl ≤ r.high then
      (st, some ⟨st.target_sl, r.dt, ExitReason.SL, (entry - st.target_sl) * lots⟩)
    else sellScanClaimed entry tp lots (trailUpdate Side.SELL entry lots st r) rest

/-- The SELL forward scan as the amended claim words it: TP on high at
least the target, exiting at the target, then SL on low at most the
stop, exiting at the stop. -/
def sellScanAmended (entry tp lots : ℚ) :
    ScanState → List Row → ScanState × Option ExitInfo
  | st, [] => (st, none)
  | st, r :: rest =>
    if tp ≤ r.high then (st, some ⟨tp, r.dt, ExitReason.TP, (entry - tp) * lots⟩)
    else if r.low ≤ st.target_sl then
      (st, some ⟨st.target_sl, r.dt, ExitReason.SL, (entry - st.target_sl) * lots⟩)
    else sellScanAmended entry tp lots (trailUpdate Side.SELL entry lots st r) rest

/-- The BUY forward scan exactly as the claim words it: within each bar
the TP check comes first and fires on low at most the target, exiting at
the target; otherwise the SL check fires on low at most the stop, exiting
at the stop; a bar that fires neither receives the trailing adjustment.
There is no branch exiting at a stop above the entry. -/
def buyScanClaimed (entry tp lots : ℚ) :
    ScanState → List Row → ScanState × Option ExitInfo
  | st, [] => (st, none)
  | st, r :: rest =>
    if r.low ≤ tp then (st, some ⟨tp, r.dt, ExitReason.TP, (tp - entry) * lots⟩)
    else if r.low ≤ st.target_sl then
      (st, some ⟨st.target_sl, r.dt, ExitReason.SL, (st.target_sl - entry) * lots⟩)
    else buyScanClaimed entry tp lots (trailUpdate Side.BUY entry lots st r) rest

/-- The stop price in force before each scanned bar, under the trailing
dynamics of the forward scan. -/
def scanStops (side : Side) (entry lots : ℚ) : ScanState → List Row → List ℚ
  | _, [] => []
  | st, r :: rest =>
    st.target_sl :: scanStops side entry lots (trailUpdate side entry lots st r) rest

/-- The stop trajectory as the claim words it: the stop equals the
initial stop up to and including the first scanned bar whose close shows
unrealized profit of at least the original risk, and equals the entry
price (breakeven) on every later bar. -/
def stopsClaimed (side : Side) (entry lots sl0 : ℚ) (bars : List Row) : List ℚ :=
  let risk := |entry - sl0| * lots
  let k := bars.findIdx (fun r => decide (risk ≤ unrealProfit side entry lots r))
  (List.range bars.length).map (fun i => if i ≤ k then sl0 else entry)

/-- The signal decision as the claim words it: the first configured level
whose price the close touches decides the bar; on such a touch the signal
is the BUY signal when the BUY conditions hold, else the SELL signal when
the SELL conditions hold, else there is no signal at all, and no later
level is consulted. -/
def signalClaimed (price swing_high swing_low atr : ℚ) (rsi : Option ℚ)
    (ema50 ema200 : ℚ) (levels : List (ℚ × ℚ)) : Option Signal :=
  match levels.find? (fun p => touched_level price p.2) with
  | none => none
  | some (lvl, _) =>
    if buyCond rsi ema50 ema200 then some (mkBuySignal price swing_low atr lvl)
    else if sellCond rsi ema50 ema200 then some (mkSellSignal price swing_high atr lvl)
    else none

/-- Concrete 201-bar dataframe whose unique extreme high sits exactly
SWING_LOOKBACK bars before the last index. -/
def cexDf : List Row :=
  ⟨0, 0, 100, 5, 50, none, 0, 0, 0⟩ :: List.replicate 200 ⟨1, 0, 1, 5, 50, none, 0, 0, 0⟩

/-- Concrete two-bar dataframe on which a BUY trade at index 0 hits
neither target nor stop within the horizon. -/
def wDf4 : List Row :=
  [⟨0, 0, 0, 0, 0, none, 0, 0, 0⟩, ⟨5, 0, 400, 300, 350, none, 0, 0, 0⟩]

/-- Concrete one-bar dataframe producing a BUY signal at index 0: the
close sits exactly on the 0.618 retracement of the swing from 0 to 100,
the RSI is oversold and the fast EMA is above the slow EMA. -/
def wDf10 : List Row :=
  [⟨0, 0, 100, 0, 191 / 5, some 25, 2, 1, 1⟩]

/-- The engine-state invariant behind the daily risk gates: the counter
dict agrees with the trade log per date; a clear loss-stop flag means
every trade-boundary partial sum of that date sits strictly above the
loss threshold; no date holds more than the daily cap; every partial sum
of a date except possibly the last sits strictly above the threshold (so
no trade was entered after the stop triggered); and the trade log is
empty before the first date is seen, with all logged entry dates at most
the current date. -/
@[reducible] def DailyInv (init : ℚ) (s : EngineState) : Prop :=
  (∀ d, lookupNat s.daily_trades d = countDay s.trades d)
  ∧ (∀ d, lookupBool s.daily_loss_stop d = false →
      ∀ j, 0 < j → j ≤ (dayPnlList s.trades d).length →
        -(init * DAILY_MAX_LOSS_PCT) < ((dayPnlList s.trades d).take j).sum)
  ∧ (∀ d, countDay s.trades d ≤ DAILY_MAX_TRADES)
  ∧ (∀ d j, 0 < j → j < (dayPnlList s.trades d).length →
      -(init * DAILY_MAX_LOSS_PCT) < ((dayPnlList s.trades d).take j).sum)
  ∧ (s.last_trade_day = none → s.trades = [])
  ∧ (∀ d0, s.last_trade_day = some d0 → ∀ t ∈ s.trades, t.entry_day ≤ d0)

theorem roundHalfEven_intCast (n : ℤ) : roundHalfEven (n : ℚ) = n := by
  simp [roundHalfEven]

theorem pyRound6_thousandth (m : ℤ) :
    pyRound6 ((m : ℚ) / 1000) = (m : ℚ) / 1000 := by
  unfold pyRound6
  have h : ((m : ℚ) / 1000) * 1000000 = ((m * 1000 : ℤ) : ℚ) := by
    push_cast
    ring
  rw [h, roundHalfEven_intCast]
  push_cast
  ring

theorem max_lot_as_int (k : ℤ) :
    max LOT_STEP ((k : ℚ) * LOT_STEP) = ((max 1 k : ℤ) : ℚ) / 1000 := by
  have hstep : LOT_STEP = 1 / 1000 := rfl
  rcases le_total (1 : ℤ) k with hk | hk
  · have hk2 : (1 : ℚ) ≤ (k : ℚ) := by exact_mod_cast hk
    have h1 : max (1 : ℤ) k = k := max_eq_right hk
    have h2 : max LOT_STEP ((k : ℚ) * LOT_STEP) = (k : ℚ) * LOT_STEP :=
      max_eq_right (by rw [hstep]; nlinarith)
    rw [h1, h2, hstep]
    ring
  · have hk2 : (k : ℚ) ≤ 1 := by exact_mod_cast hk
    have h1 : max (1 : ℤ) k = 1 := max_eq_left hk
    have h2 : max LOT_STEP ((k : ℚ) * LOT_STEP) = LOT_STEP :=
      max_eq_left (by rw [hstep]; nlinarith)
    rw [h1, h2, hstep]
    norm_num

theorem calc_lots_pos_branch (equity entry sl : ℚ) (h : 0 < |entry - sl|) :
    calc_lots_from_risk equity entry sl
      = max LOT_STEP
          ((⌊equity * RISK_PER_TRADE / |entry - sl| / LOT_STEP⌋ : ℚ) * LOT_STEP) := by
  simp only [calc_lots_from_risk, if_neg (not_le.mpr h)]
  rw [max_lot_as_int, pyRound6_thousandth, ← max_lot_as_int]

/-- Claim C5 counterexample.  At equal entry and stop the sizer returns
the 0.001 fallback, which fails the skip guard lots at most 0, so the
signal is not skipped; and at a huge stop distance the clamped size 0.001
strictly exceeds the raw risk-implied size 0.0006. -/
theorem sizer_claim_cex :
    calc_lots_from_risk 10000 100 100 = 1 / 1000
  ∧ ¬ calc_lots_from_risk 10000 100 100 ≤ 0
  ∧ calc_lots_from_risk 10000 0 1000000 = 1 / 1000
  ∧ 10000 * RISK_PER_TRADE / |(0 : ℚ) - 1000000| < 1 / 1000 := by
  have h1 : calc_lots_from_risk 10000 100 100 = 1 / 1000 := by
    norm_num [calc_lots_from_risk]
  have h2 : calc_lots_from_risk 10000 0 1000000 = 1 / 1000 := by
    have habs : |(0 : ℚ) - 1000000| = 1000000 := by norm_num
    norm_num [calc_lots_from_risk, habs, RISK_PER_TRADE, LOT_STEP, pyRound6,
      roundHalfEven]
  refine ⟨h1, ?_, h2, ?_⟩
  · rw [h1]
    norm_num
  · have habs : |(0 : ℚ) - 1000000| = 1000000 := by norm_num
    rw [habs, RISK_PER_TRADE]
    norm_num

/-- Claim C5 as amended: the sizer always returns a strictly positive
size, so the lots at most 0 guard of run_backtest never skips a signal;
at non-positive stop distance the result is the MIN_LOT fallback; at
positive distance the result is the raw risk-implied size floored to the
lot step and clamped below by the lot step, and whenever the floored
value is at least one lot step (that is, whenever the clamp is inactive)
the result does not exceed the raw risk-implied size. -/
theorem sizer_floor_clamp (equity entry sl : ℚ) :
    0 < calc_lots_from_risk equity entry sl
  ∧ ¬ calc_lots_from_risk equity entry sl ≤ 0
  ∧ (|entry - sl| ≤ 0 → calc_lots_from_risk equity entry sl = MIN_LOT)
  ∧ (0 < |entry - sl| →
      calc_lots_from_risk equity entry sl
        = max LOT_STEP
            ((⌊equity * RISK_PER_TRADE / |entry - sl| / LOT_STEP⌋ : ℚ) * LOT_STEP)
      ∧ (LOT_STEP ≤ (⌊equity * RISK_PER_TRADE / |entry - sl| / LOT_STEP⌋ : ℚ) * LOT_STEP →
          calc_lots_from_risk equity entry sl
            ≤ equity * RISK_PER_TRADE / |entry - sl|)) := by
  have hpos : 0 < calc_lots_from_risk equity entry sl := by
    rcases le_or_lt |entry - sl| 0 with h | h
    · simp only [calc_lots_from_risk, if_pos h]
      norm_num
    · rw [calc_lots_pos_branch equity entry sl h]
      have : LOT_STEP ≤ max LOT_STEP ((⌊equity * RISK_PER_TRADE / |entry - sl| / LOT_STEP⌋ : ℚ) * LOT_STEP) :=
        le_max_left _ _
      have hstep : (0 : ℚ) < LOT_STEP := by norm_num [LOT_STEP]
      linarith
  refine ⟨hpos, not_le.mpr hpos, ?_, ?_⟩
  · intro h
    simp only [calc_lots_from_risk, if_pos h]
    norm_num [MIN_LOT]
  · intro h
    refine ⟨calc_lots_pos_branch equity entry sl h, ?_⟩
    intro hcl
    rw [calc_lots_pos_branch equity entry sl h, max_eq_right hcl]
    have hstep : (0 : ℚ) < LOT_STEP := by norm_num [LOT_STEP]
    have hfl : (⌊equity * RISK_PER_TRADE / |entry - sl| / LOT_STEP⌋ : ℚ)
        ≤ equity * RISK_PER_TRADE / |entry - sl| / LOT_STEP := Int.floor_le _
    have := mul_le_mul_of_nonneg_right hfl (le_of_lt hstep)
    calc (⌊equity * RISK_PER_TRADE / |entry - sl| / LOT_STEP⌋ : ℚ) * LOT_STEP
        ≤ equity * RISK_PER_TRADE / |entry - sl| / LOT_STEP * LOT_STEP := this
      _ = equity * RISK_PER_TRADE / |entry - sl| :=
          div_mul_cancel₀ _ (ne_of_gt hstep)

/-- Witness for the amended claim C5 at a concrete input. -/
theorem sizer_floor_clamp_w :
    0 < calc_lots_from_risk 10000 100 90
  ∧ ¬ calc_lots_from_risk 10000 100 90 ≤ 0
  ∧ (|(100 : ℚ) - 90| ≤ 0 → calc_lots_from_risk 10000 100 90 = MIN_LOT)
  ∧ (0 < |(100 : ℚ) - 90| →
      calc_lots_from_risk 10000 100 90
        = max LOT_STEP
            ((⌊(10000 : ℚ) * RISK_PER_TRADE / |(100 : ℚ) - 90| / LOT_STEP⌋ : ℚ) * LOT_STEP)
      ∧ (LOT_STEP ≤ (⌊(10000 : ℚ) * RISK_PER_TRADE / |(100 : ℚ) - 90| / LOT_STEP⌋ : ℚ) * LOT_STEP →
          calc_lots_from_risk 10000 100 90
            ≤ 10000 * RISK_PER_TRADE / |(100 : ℚ) - 90|)) :=
  sizer_floor_clamp 10000 100 90

theorem checkSignal_no_cond (price swing_high swing_low atr : ℚ) (rsi : Option ℚ)
    (ema50 ema200 : ℚ) (hb : buyCond rsi ema50 ema200 = false)
    (hs : sellCond rsi ema50 ema200 = false) :
    ∀ levels, checkSignal price swing_high swing_low atr rsi ema50 ema200 levels = none := by
  intro levels
  induction levels with
  | nil => rfl
  | cons p rest ih =>
    obtain ⟨lvl, lvl_val⟩ := p
    by_cases ht : touched_level price lvl_val = true
    · simp [checkSignal, ht, hb, hs, ih]
    · simp [checkSignal, ht, ih]

/-- Claim C9: the fib-touch loop produces at most one signal, decided
entirely by the first level in configured order whose price the close
touches; once some level is touched, later levels have no influence even
when the side conditions fail and the bar yields no signal. -/
theorem first_touched_level_decides (price swing_high swing_low atr : ℚ)
    (rsi : Option ℚ) (ema50 ema200 : ℚ) (levels : List (ℚ × ℚ)) :
    checkSignal price swing_high swing_low atr rsi ema50 ema200 levels
      = signalClaimed price swing_high swing_low atr rsi ema50 ema200 levels := by
  induction levels with
  | nil => rfl
  | cons p rest ih =>
    obtain ⟨lvl, lvl_val⟩ := p
    by_cases ht : touched_level price lvl_val = true
    · cases hb : buyCond rsi ema50 ema200 with
      | true => simp [checkSignal, signalClaimed, ht, hb]
      | false =>
        cases hs : sellCond rsi ema50 ema200 with
        | true => simp [checkSignal, signalClaimed, ht, hb, hs]
        | false =>
          simp [checkSignal, signalClaimed, ht, hb, hs,
            checkSignal_no_cond price swing_high swing_low atr rsi ema50 ema200 hb hs]
    · simp only [checkSignal, if_neg ht]
      rw [ih]
      simp [signalClaimed, List.find?_cons, ht]

theorem trailUpdate_cases (side : Side) (entry lots : ℚ) (st : ScanState) (r : Row) :
    trailUpdate side entry lots st r = st
  ∨ trailUpdate side entry lots st r = ⟨entry, true⟩ := by
  by_cases h : st.trailing_active = false
    ∧ |entry - st.target_sl| * lots ≤ unrealProfit side entry lots r
  · right
    simp [trailUpdate, h]
  · left
    simp [trailUpdate, h]

theorem trailUpdate_active (side : Side) (entry lots x : ℚ) (r : Row) :
    trailUpdate side entry lots ⟨x, true⟩ r = ⟨x, true⟩ := by
  simp [trailUpdate]

theorem scanStops_active (side : Side) (entry lots x : ℚ) (bars : List Row) :
    scanStops side entry lots ⟨x, true⟩ bars = List.replicate bars.length x := by
  induction bars with
  | nil => rfl
  | cons r rest ih => simp [scanStops, trailUpdate_active, ih, List.replicate_succ]

theorem scanTrade_state_cases (side : Side) (entry tp lots : ℚ) :
    ∀ (bars : List Row) (st : ScanState),
      (scanTrade side entry tp lots st bars).1 = st
    ∨ (scanTrade side entry tp lots st bars).1 = ⟨entry, true⟩ := by
  intro bars
  induction bars with
  | nil => intro st; left; rfl
  | cons r rest ih =>
    intro st
    unfold scanTrade
    cases hx : exitCheck side entry tp lots st r with
    | some e => left; rfl
    | none =>
      rcases trailUpdate_cases side entry lots st r with h | h
      · rw [h]; exact ih st
      · rw [h]
        rcases ih ⟨entry, true⟩ with h2 | h2
        · right; exact h2
        · right; exact h2

/-- Claim C3: starting from the initial stop with trailing inactive, the
stop in force before each scanned bar equals the initial stop up to and
including the first bar whose close shows unrealized profit of at least
the original risk, and equals the entry price on every later bar — the
move to breakeven happens exactly once and no later bar moves the stop
again; accordingly the scan state finishes either untouched or at
breakeven with trailing active. -/
theorem breakeven_moves_stop_once (side : Side) (entry tp lots sl0 : ℚ)
    (bars : List Row) :
    scanStops side entry lots ⟨sl0, false⟩ bars
      = stopsClaimed side entry lots sl0 bars
  ∧ ((scanTrade side entry tp lots ⟨sl0, false⟩ bars).1 = ⟨sl0, false⟩
     ∨ (scanTrade side entry tp lots ⟨sl0, false⟩ bars).1 = ⟨entry, true⟩) := by
  constructor
  · induction bars with
    | nil => rfl
    | cons r rest ih =>
      by_cases hc : |entry - sl0| * lots ≤ unrealProfit side entry lots r
      · have hupd : trailUpdate side entry lots ⟨sl0, false⟩ r = ⟨entry, true⟩ := by
          simp [trailUpdate, hc]
        have hk : List.findIdx
            (fun b => decide (|entry - sl0| * lots ≤ unrealProfit side entry lots b))
            (r :: rest) = 0 := by
          rw [List.findIdx_cons]
          simp [decide_eq_true hc]
        simp only [scanStops, hupd, scanStops_active, stopsClaimed, hk,
          List.length_cons]
        rw [List.range_succ_eq_map, List.map_cons, List.map_map]
        refine congrArg₂ _ (by simp) ?_
        refine Eq.symm (Eq.trans (List.map_congr_left ?_)
          (by rw [List.map_const', List.length_range]))
        intro i _
        simp [Function.comp]
      · have hupd : trailUpdate side entry lots ⟨sl0, false⟩ r = ⟨sl0, false⟩ := by
          simp [trailUpdate, hc]
        have hk : List.findIdx
            (fun b => decide (|entry - sl0| * lots ≤ unrealProfit side entry lots b))
            (r :: rest)
            = List.findIdx
              (fun b => decide (|entry - sl0| * lots ≤ unrealProfit side entry lots b))
              rest + 1 := by
          rw [List.findIdx_cons]
          simp [decide_eq_false hc]
        simp only [scanStops, hupd, stopsClaimed, hk, List.length_cons] at ih ⊢
        rw [ih, List.range_succ_eq_map, List.map_cons, List.map_map]
        refine congrArg₂ _ (by simp) ?_
        refine List.map_congr_left ?_
        intro i _
        simp [Function.comp, Nat.succ_le_succ_iff]
  · exact scanTrade_state_cases side entry tp lots bars ⟨sl0, false⟩

/-- Claim C1 counterexample.  For a SELL trade with entry 100, stop 110
and target 82, a single scanned bar with high 80 and low 70 makes the
source scan exit SL at the stop price 110 even though the bar high 80
never reaches the stop, while the scan worded as the claim states it (SL
on high at least the stop) does not exit on that bar at all. -/
theorem sell_sl_check_cex :
    scanTrade Side.SELL 100 82 1 ⟨110, false⟩ [⟨7, 0, 80, 70, 75, none, 0, 0, 0⟩]
      = (⟨110, false⟩, some ⟨110, 7, ExitReason.SL, -10⟩)
  ∧ sellScanClaimed 100 82 1 ⟨110, false⟩ [⟨7, 0, 80, 70, 75, none, 0, 0, 0⟩]
      = (⟨100, true⟩, none)
  ∧ ¬ ((110 : ℚ) ≤ 80) := by
  refine ⟨?_, ?_, by norm_num⟩
  · norm_num [scanTrade, exitCheck]
  · norm_num [sellScanClaimed, trailUpdate, unrealProfit]

/-- Claim C1 as amended: in the SELL forward scan the TP check fires
first, on a bar high at least the target, exiting at the target price;
otherwise the SL check fires on a bar low at most the stop, exiting at
the stop price; bars firing neither receive the trailing adjustment. -/
theorem sell_scan_exit_rules (entry tp lots : ℚ) :
    ∀ (bars : List Row) (st : ScanState),
      scanTrade Side.SELL entry tp lots st bars
        = sellScanAmended entry tp lots st bars := by
  intro bars
  induction bars with
  | nil => intro st; rfl
  | cons r rest ih =>
    intro st
    by_cases h1 : tp ≤ r.high
    · simp [scanTrade, exitCheck, sellScanAmended, h1]
    · by_cases h2 : r.low ≤ st.target_sl
      · simp [scanTrade, exitCheck, sellScanAmended, h1, h2]
      · simp [scanTrade, exitCheck, sellScanAmended, h1, h2, ih]

theorem trailUpdate_sl_le (side : Side) (entry lots : ℚ) (st : ScanState) (r : Row)
    (h : st.target_sl ≤ entry) :
    (trailUpdate side entry lots st r).target_sl ≤ entry := by
  rcases trailUpdate_cases side entry lots st r with h2 | h2
  · rw [h2]; exact h
  · rw [h2]

theorem buyScan_eq_of_sl_le (entry tp lots : ℚ) :
    ∀ (bars : List Row) (st : ScanState), st.target_sl ≤ entry →
      scanTrade Side.BUY entry tp lots st bars
        = buyScanClaimed entry tp lots st bars := by
  intro bars
  induction bars with
  | nil => intro st _; rfl
  | cons r rest ih =>
    intro st h
    have hmid : ¬ (st.target_sl ≤ r.high ∧ entry < st.target_sl) := by
      rintro ⟨-, hlt⟩
      exact absurd h (not_le.mpr hlt)
    by_cases h1 : r.low ≤ tp
    · simp [scanTrade, exitCheck, buyScanClaimed, h1]
    · by_cases h2 : r.low ≤ st.target_sl
      · simp [scanTrade, exitCheck, buyScanClaimed, h1, h2, hmid]
      · simp [scanTrade, exitCheck, buyScanClaimed, h1, h2, hmid,
          ih (trailUpdate Side.BUY entry lots st r) (trailUpdate_sl_le _ _ _ _ _ h)]

/-- Claim C2: for a BUY trade whose current stop does not exceed the
entry (as holds for every engine-generated BUY trade, initially and after
a breakeven move), the forward scan follows the claimed per-bar order:
the TP check on low at most the target fires first, exiting at the
target, otherwise the SL check on low at most the stop exits at the stop,
so a bar meeting both conditions exits as TP. -/
theorem buy_scan_tp_precedes_sl (entry tp lots : ℚ) (st : ScanState)
    (bars : List Row) (h : st.target_sl ≤ entry) :
    scanTrade Side.BUY entry tp lots st bars
      = buyScanClaimed entry tp lots st bars :=
  buyScan_eq_of_sl_le entry tp lots bars st h

/-- Witness for claim C2 at a concrete input on which both TP and SL
conditions hold on the same bar and the exit is TP at the target. -/
theorem buy_scan_tp_precedes_sl_w :
    (⟨90, false⟩ : ScanState).target_sl ≤ 100
  ∧ scanTrade Side.BUY 100 103 1 ⟨90, false⟩ [⟨1, 0, 104, 80, 85, none, 0, 0, 0⟩]
      = buyScanClaimed 100 103 1 ⟨90, false⟩ [⟨1, 0, 104, 80, 85, none, 0, 0, 0⟩]
  ∧ scanTrade Side.BUY 100 103 1 ⟨90, false⟩ [⟨1, 0, 104, 80, 85, none, 0, 0, 0⟩]
      = (⟨90, false⟩, some ⟨103, 1, ExitReason.TP, 3⟩) :=
  ⟨by norm_num,
   buy_scan_tp_precedes_sl 100 103 1 ⟨90, false⟩ [⟨1, 0, 104, 80, 85, none, 0, 0, 0⟩]
     (by norm_num),
   by norm_num [scanTrade, exitCheck]⟩

theorem scanRows_getLast (df : List Row) (idx : ℕ) (hne : scanRows df idx ≠ []) :
    (scanRows df idx).getLast? = df[timeoutIndex df idx]? := by
  have hm : (scanRows df idx).length = min 999 (df.length - (idx + 1)) := by
    simp [scanRows]
  have hpos : 0 < (scanRows df idx).length := List.length_pos.mpr hne
  rw [List.getLast?_eq_getElem?]
  show ((df.drop (idx + 1)).take 999)[(scanRows df idx).length - 1]? = _
  rw [List.getElem?_take, if_pos (by omega), List.getElem?_drop]
  congr 1
  unfold timeoutIndex
  omega

/-- Claim C4: the forward scan visits only bars strictly after the signal
bar, in order, bounded by the horizon (a prefix of the tail after the
signal bar of at most 999 bars, within the claimed 1000-bar bound); when
the scan produces no TP or SL exit, the trade closes with reason NO_HIT
at the close price and timestamp of the bar at the timeout index, which
is exactly the last scanned bar. -/
theorem timeout_closes_at_last_scanned (df : List Row) (idx : ℕ) (sig : Signal)
    (lots : ℚ) (row : Row)
    (hne : scanRows df idx ≠ [])
    (hnone : (scanTrade sig.side sig.entry sig.tp lots ⟨sig.sl, false⟩
        (scanRows df idx)).2 = none) :
    (simulate_trade df idx sig lots row).reason = ExitReason.NO_HIT
  ∧ (simulate_trade df idx sig lots row).exit_time
      = (df.getD (timeoutIndex df idx) default).dt
  ∧ (simulate_trade df idx sig lots row).pnl
      = (match sig.side with
         | Side.BUY => ((df.getD (timeoutIndex df idx) default).close - sig.entry) * lots
         | Side.SELL => (sig.entry - (df.getD (timeoutIndex df idx) default).close) * lots)
  ∧ (scanRows df idx).getLast? = some (df.getD (timeoutIndex df idx) default)
  ∧ (scanRows df idx).length ≤ 999
  ∧ scanRows df idx = (df.drop (idx + 1)).take 999 := by
  obtain ⟨side, entry, sl, tp, lvl⟩ := sig
  have hm : (scanRows df idx).length = min 999 (df.length - (idx + 1)) := by
    simp [scanRows]
  have hpos : 0 < (scanRows df idx).length := List.length_pos.mpr hne
  have hti : timeoutIndex df idx < df.length := by
    unfold timeoutIndex
    omega
  have hgetD : df[timeoutIndex df idx]?
      = some (df.getD (timeoutIndex df idx) default) := by
    rw [List.getD_eq_getElem?_getD, List.getElem?_eq_getElem hti]
    rfl
  refine ⟨?_, ?_, ?_, (scanRows_getLast df idx hne).trans hgetD, by omega, rfl⟩
  · cases side <;> simp [simulate_trade, hnone]
  · cases side <;> simp [simulate_trade, hnone]
  · cases side <;> simp [simulate_trade, hnone]

/-- Witness for claim C4 at a concrete two-bar input with a timed-out BUY
trade. -/
theorem timeout_closes_at_last_scanned_w :
    (scanRows wDf4 0 ≠ [])
  ∧ ((simulate_trade wDf4 0 ⟨Side.BUY, 100, 90, 200, 0⟩ 1 ⟨0, 0, 0, 0, 0, none, 0, 0, 0⟩).reason
        = ExitReason.NO_HIT
    ∧ (simulate_trade wDf4 0 ⟨Side.BUY, 100, 90, 200, 0⟩ 1 ⟨0, 0, 0, 0, 0, none, 0, 0, 0⟩).exit_time
        = (wDf4.getD (timeoutIndex wDf4 0) default).dt
    ∧ (simulate_trade wDf4 0 ⟨Side.BUY, 100, 90, 200, 0⟩ 1 ⟨0, 0, 0, 0, 0, none, 0, 0, 0⟩).pnl
        = (match (⟨Side.BUY, 100, 90, 200, 0⟩ : Signal).side with
           | Side.BUY => ((wDf4.getD (timeoutIndex wDf4 0) default).close
               - (⟨Side.BUY, 100, 90, 200, 0⟩ : Signal).entry) * 1
           | Side.SELL => ((⟨Side.BUY, 100, 90, 200, 0⟩ : Signal).entry
               - (wDf4.getD (timeoutIndex wDf4 0) default).close) * 1)
    ∧ (scanRows wDf4 0).getLast? = some (wDf4.getD (timeoutIndex wDf4 0) default)
    ∧ (scanRows wDf4 0).length ≤ 999
    ∧ scanRows wDf4 0 = (wDf4.drop (0 + 1)).take 999) :=
  ⟨by simp [scanRows, wDf4],
   timeout_closes_at_last_scanned wDf4 0 ⟨Side.BUY, 100, 90, 200, 0⟩ 1
     ⟨0, 0, 0, 0, 0, none, 0, 0, 0⟩
     (by simp [scanRows, wDf4])
     (by norm_num [scanRows, wDf4, scanTrade, exitCheck, trailUpdate, unrealProfit])⟩

theorem idxmaxAux_spec (f : Row → ℚ) :
    ∀ (l : List (ℕ × Row)) (acc : ℕ × ℚ),
      (idxmaxAux f acc l = acc ∨ ∃ p ∈ l, idxmaxAux f acc l = (p.1, f p.2))
    ∧ acc.2 ≤ (idxmaxAux f acc l).2
    ∧ ∀ p ∈ l, f p.2 ≤ (idxmaxAux f acc l).2 := by
  intro l
  induction l with
  | nil => exact fun acc => ⟨Or.inl rfl, le_refl _, by simp⟩
  | cons q rest ih =>
    intro acc
    obtain ⟨i, r⟩ := q
    by_cases h : acc.2 < f r
    · have hstep : idxmaxAux f acc ((i, r) :: rest) = idxmaxAux f (i, f r) rest := by
        simp [idxmaxAux, h]
      obtain ⟨hmem, hacc, hall⟩ := ih (i, f r)
      refine ⟨?_, ?_, ?_⟩
      · rcases hmem with h1 | ⟨p, hp, h1⟩
        · exact Or.inr ⟨(i, r), by simp, by rw [hstep, h1]⟩
        · exact Or.inr ⟨p, by simp [hp], by rw [hstep, h1]⟩
      · rw [hstep]
        exact le_trans (le_of_lt h) hacc
      · intro p hp
        rw [hstep]
        rcases List.mem_cons.mp hp with h2 | h2
        · rw [h2]
          exact hacc
        · exact hall p h2
    · have hstep : idxmaxAux f acc ((i, r) :: rest) = idxmaxAux f acc rest := by
        simp [idxmaxAux, h]
      obtain ⟨hmem, hacc, hall⟩ := ih acc
      refine ⟨?_, by rw [hstep]; exact hacc, ?_⟩
      · rcases hmem with h1 | ⟨p, hp, h1⟩
        · exact Or.inl (by rw [hstep, h1])
        · exact Or.inr ⟨p, by simp [hp], by rw [hstep, h1]⟩
      · intro p hp
        rw [hstep]
        rcases List.mem_cons.mp hp with h2 | h2
        · rw [h2]
          exact le_trans (not_lt.mp h) hacc
        · exact hall p h2

theorem idxmax_spec (f : Row → ℚ) (w : List (ℕ × Row)) (i : ℕ) (v : ℚ)
    (h : idxmax f w = some (i, v)) :
    (∃ p ∈ w, p.1 = i ∧ f p.2 = v) ∧ ∀ p ∈ w, f p.2 ≤ v := by
  match w with
  | [] => simp [idxmax] at h
  | (j, r) :: rest =>
    simp only [idxmax, Option.some.injEq] at h
    obtain ⟨hmem, hacc, hall⟩ := idxmaxAux_spec f rest (j, f r)
    rw [h] at hacc hall
    constructor
    · rcases hmem with h1 | ⟨p, hp, h1⟩
      · have h2 : ((j, f r) : ℕ × ℚ) = (i, v) := h1.symm.trans h
        obtain ⟨e1, e2⟩ := Prod.mk.injEq .. |>.mp h2
        exact ⟨(j, r), by simp, e1, e2⟩
      · have h2 : ((p.1, f p.2) : ℕ × ℚ) = (i, v) := h1.symm.trans h
        obtain ⟨e1, e2⟩ := Prod.mk.injEq .. |>.mp h2
        exact ⟨p, by simp [hp], e1, e2⟩
    · intro p hp
      rcases List.mem_cons.mp hp with h2 | h2
      · rw [h2]
        exact hacc
      · exact hall p h2

theorem idxminAux_spec (f : Row → ℚ) :
    ∀ (l : List (ℕ × Row)) (acc : ℕ × ℚ),
      (idxminAux f acc l = acc ∨ ∃ p ∈ l, idxminAux f acc l = (p.1, f p.2))
    ∧ (idxminAux f acc l).2 ≤ acc.2
    ∧ ∀ p ∈ l, (idxminAux f acc l).2 ≤ f p.2 := by
  intro l
  induction l with
  | nil => exact fun acc => ⟨Or.inl rfl, le_refl _, by simp⟩
  | cons q rest ih =>
    intro acc
    obtain ⟨i, r⟩ := q
    by_cases h : f r < acc.2
    · have hstep : idxminAux f acc ((i, r) :: rest) = idxminAux f (i, f r) rest := by
        simp [idxminAux, h]
      obtain ⟨hmem, hacc, hall⟩ := ih (i, f r)
      refine ⟨?_, ?_, ?_⟩
      · rcases hmem with h1 | ⟨p, hp, h1⟩
        · exact Or.inr ⟨(i, r), by simp, by rw [hstep, h1]⟩
        · exact Or.inr ⟨p, by simp [hp], by rw [hstep, h1]⟩
      · rw [hstep]
        exact le_trans hacc (le_of_lt h)
      · intro p hp
        rw [hstep]
        rcases List.mem_cons.mp hp with h2 | h2
        · rw [h2]
          exact hacc
        · exact hall p h2
    · have hstep : idxminAux f acc ((i, r) :: rest) = idxminAux f acc rest := by
        simp [idxminAux, h]
      obtain ⟨hmem, hacc, hall⟩ := ih acc
      refine ⟨?_, by rw [hstep]; exact hacc, ?_⟩
      · rcases hmem with h1 | ⟨p, hp, h1⟩
        · exact Or.inl (by rw [hstep, h1])
        · exact Or.inr ⟨p, by simp [hp], by rw [hstep, h1]⟩
      · intro p hp
        rw [hstep]
        rcases List.mem_cons.mp hp with h2 | h2
        · rw [h2]
          exact le_trans hacc (not_lt.mp h)
        · exact hall p h2

theorem idxmin_spec (f : Row → ℚ) (w : List (ℕ × Row)) (i : ℕ) (v : ℚ)
    (h : idxmin f w = some (i, v)) :
    (∃ p ∈ w, p.1 = i ∧ f p.2 = v) ∧ ∀ p ∈ w, v ≤ f p.2 := by
  match w with
  | [] => simp [idxmin] at h
  | (j, r) :: rest =>
    simp only [idxmin, Option.some.injEq] at h
    obtain ⟨hmem, hacc, hall⟩ := idxminAux_spec f rest (j, f r)
    rw [h] at hacc hall
    constructor
    · rcases hmem with h1 | ⟨p, hp, h1⟩
      · have h2 : ((j, f r) : ℕ × ℚ) = (i, v) := h1.symm.trans h
        obtain ⟨e1, e2⟩ := Prod.mk.injEq .. |>.mp h2
        exact ⟨(j, r), by simp, e1, e2⟩
      · have h2 : ((p.1, f p.2) : ℕ × ℚ) = (i, v) := h1.symm.trans h
        obtain ⟨e1, e2⟩ := Prod.mk.injEq .. |>.mp h2
        exact ⟨p, by simp [hp], e1, e2⟩
    · intro p hp
      rcases List.mem_cons.mp hp with h2 | h2
      · rw [h2]
        exact hacc
      · exact hall p h2

theorem windowAux_mem (l : List Row) :
    ∀ (s k : ℕ), k < l.length → (s + k, l.getD k default) ∈ windowAux s l := by
  induction l with
  | nil =>
    intro s k hk
    simp at hk
  | cons r rest ih =>
    intro s k hk
    match k with
    | 0 => simp [windowAux]
    | Nat.succ k =>
      have hk2 : k < rest.length := by simpa using hk
      have := ih (s + 1) k hk2
      rw [show s + (k + 1) = (s + 1) + k by omega]
      simp only [windowAux]
      exact List.mem_cons.mpr (Or.inr this)

theorem windowAux_mem_spec (l : List Row) :
    ∀ (s : ℕ) (p : ℕ × Row), p ∈ windowAux s l →
      s ≤ p.1 ∧ p.1 - s < l.length ∧ l[p.1 - s]? = some p.2 := by
  induction l with
  | nil =>
    intro s p hp
    simp [windowAux] at hp
  | cons r rest ih =>
    intro s p hp
    simp only [windowAux] at hp
    rcases List.mem_cons.mp hp with h | h
    · subst h
      exact ⟨le_refl _, by simp, by simp⟩
    · obtain ⟨h1, h2, h3⟩ := ih (s + 1) p h
      refine ⟨by omega, by simp only [List.length_cons]; omega, ?_⟩
      have hd : p.1 - s = (p.1 - (s + 1)) + 1 := by omega
      rw [hd, List.getElem?_cons_succ]
      exact h3

theorem mem_window (df : List Row) (idx lookback j : ℕ)
    (hj1 : idx - lookback ≤ j) (hj2 : j ≤ idx) (hj3 : j < df.length) :
    (j, df.getD j default) ∈ window df idx lookback := by
  unfold window
  have hlen : ((df.drop (idx - lookback)).take (idx + 1 - (idx - lookback))).length
      = min (idx + 1 - (idx - lookback)) (df.length - (idx - lookback)) := by
    simp
  have hk : j - (idx - lookback)
      < ((df.drop (idx - lookback)).take (idx + 1 - (idx - lookback))).length := by
    omega
  have hval : ((df.drop (idx - lookback)).take (idx + 1 - (idx - lookback))).getD
      (j - (idx - lookback)) default = df.getD j default := by
    rw [List.getD_eq_getElem?_getD, List.getD_eq_getElem?_getD]
    rw [List.getElem?_take, if_pos (by omega), List.getElem?_drop]
    rw [show idx - lookback + (j - (idx - lookback)) = j by omega]
  have := windowAux_mem ((df.drop (idx - lookback)).take (idx + 1 - (idx - lookback)))
    (idx - lookback) (j - (idx - lookback)) hk
  rw [hval, show idx - lookback + (j - (idx - lookback)) = j by omega] at this
  exact this

theorem window_mem_spec (df : List Row) (idx lookback : ℕ) (p : ℕ × Row)
    (hp : p ∈ window df idx lookback) :
    idx - lookback ≤ p.1 ∧ p.1 ≤ idx ∧ p.1 < df.length
  ∧ p.2 = df.getD p.1 default := by
  unfold window at hp
  obtain ⟨h1, h2, h3⟩ := windowAux_mem_spec _ _ _ hp
  have hlen : ((df.drop (idx - lookback)).take (idx + 1 - (idx - lookback))).length
      = min (idx + 1 - (idx - lookback)) (df.length - (idx - lookback)) := by
    simp
  have hub : p.1 ≤ idx := by omega
  have h4 : df[p.1]? = some p.2 := by
    rw [List.getElem?_take] at h3
    by_cases hc : p.1 - (idx - lookback) < idx + 1 - (idx - lookback)
    · rw [if_pos hc, List.getElem?_drop,
        show idx - lookback + (p.1 - (idx - lookback)) = p.1 by omega] at h3
      exact h3
    · rw [if_neg hc] at h3
      exact absurd h3 (by simp)
  have h5 : p.1 < df.length := by
    by_contra hge
    rw [List.getElem?_eq_none (by omega)] at h4
    exact Option.noConfusion h4
  refine ⟨h1, hub, h5, ?_⟩
  rw [List.getD_eq_getElem?_getD, h4]
  rfl

/-- Claim C8 counterexample.  On a 201-bar dataframe whose index 0 alone
carries the high 100, the locator at index 200 returns that high with
index 0, yet every bar of the trailing window of at most SWING_LOOKBACK
bars ending at index 200 inclusive (indices 1 through 200) has high 1, so
the returned value is not the maximum high of that window: the locator
actually inspects SWING_LOOKBACK + 1 bars. -/
theorem cexDf_tail_high (j : ℕ) (h1 : 1 ≤ j) (h2 : j ≤ 200) :
    (cexDf.getD j default).high = 1 := by
  obtain ⟨j2, rfl⟩ : ∃ j2, j = j2 + 1 := ⟨j - 1, by omega⟩
  show ((List.replicate 200 (⟨1, 0, 1, 5, 50, none, 0, 0, 0⟩ : Row)).getD j2 default).high = 1
  rw [List.getD_eq_getElem?_getD, List.getElem?_replicate, if_pos (by omega)]
  rfl

theorem swings_max_min (df : List Row) (idx : ℕ) (h : idx < df.length) :
    ∃ sh hi slo li,
      find_recent_swings df idx SWING_LOOKBACK = some (sh, hi, slo, li)
    ∧ idx - SWING_LOOKBACK ≤ hi ∧ hi ≤ idx ∧ hi < df.length
    ∧ idx - SWING_LOOKBACK ≤ li ∧ li ≤ idx ∧ li < df.length
    ∧ (df.getD hi default).high = sh
    ∧ (df.getD li default).low = slo
    ∧ (∀ j, idx - SWING_LOOKBACK ≤ j → j ≤ idx → j < df.length →
        (df.getD j default).high ≤ sh ∧ slo ≤ (df.getD j default).low) := by
  have hmem : (idx, df.getD idx default) ∈ window df idx SWING_LOOKBACK :=
    mem_window df idx SWING_LOOKBACK idx (by omega) (le_refl _) h
  rcases hw : window df idx SWING_LOOKBACK with _ | ⟨a, t⟩
  · rw [hw] at hmem
    exact absurd hmem (List.not_mem_nil _)
  · obtain ⟨i1, r1⟩ := a
    have hmx : idxmax (fun r => r.high) (window df idx SWING_LOOKBACK)
        = some (idxmaxAux (fun r => r.high) (i1, r1.high) t) := by
      rw [hw]
      rfl
    have hmn : idxmin (fun r => r.low) (window df idx SWING_LOOKBACK)
        = some (idxminAux (fun r => r.low) (i1, r1.low) t) := by
      rw [hw]
      rfl
    rcases hpx : idxmaxAux (fun r => r.high) (i1, r1.high) t with ⟨hi, sh⟩
    rcases hpn : idxminAux (fun r => r.low) (i1, r1.low) t with ⟨li, slo⟩
    rw [hpx] at hmx
    rw [hpn] at hmn
    obtain ⟨⟨pmx, hpmx, hpmx1, hpmx2⟩, hmax⟩ :=
      idxmax_spec (fun r => r.high) (window df idx SWING_LOOKBACK) hi sh hmx
    obtain ⟨⟨pmn, hpmn, hpmn1, hpmn2⟩, hmin⟩ :=
      idxmin_spec (fun r => r.low) (window df idx SWING_LOOKBACK) li slo hmn
    obtain ⟨hbx1, hbx2, hbx3, hbx4⟩ := window_mem_spec df idx SWING_LOOKBACK pmx hpmx
    obtain ⟨hbn1, hbn2, hbn3, hbn4⟩ := window_mem_spec df idx SWING_LOOKBACK pmn hpmn
    refine ⟨sh, hi, slo, li, ?_, ?_, ?_, ?_, ?_, ?_, ?_, ?_, ?_, ?_⟩
    · unfold find_recent_swings
      rw [hmx, hmn]
    · omega
    · omega
    · omega
    · omega
    · omega
    · omega
    · rw [← hpmx1, ← hbx4]
      exact hpmx2
    · rw [← hpmn1, ← hbn4]
      exact hpmn2
    · intro j hj1 hj2 hj3
      have hjm := mem_window df idx SWING_LOOKBACK j hj1 hj2 hj3
      exact ⟨hmax _ hjm, hmin _ hjm⟩

/-- Claim C8 counterexample.  On the concrete 201-bar dataframe cexDf,
whose index 0 alone carries the high 100, the locator at index 200
returns the maximum 100, yet every bar of the trailing window of at most
SWING_LOOKBACK bars ending at index 200 inclusive (indices 1 through 200)
has high 1; so the value returned is not the maximum high within that
window — the locator actually inspects SWING_LOOKBACK + 1 bars. -/
theorem swing_window_cex :
    ∃ sh hi slo li,
      find_recent_swings cexDf 200 SWING_LOOKBACK = some (sh, hi, slo, li)
    ∧ sh = 100
    ∧ (∀ j, 1 ≤ j → j ≤ 200 → (cexDf.getD j default).high = 1)
    ∧ ¬ ((100 : ℚ) ≤ 1) := by
  have hlen : (200 : ℕ) < cexDf.length := by
    have : cexDf.length = 201 := by
      simp only [cexDf, List.length_cons, List.length_replicate]
    omega
  have hsl : SWING_LOOKBACK = 200 := rfl
  obtain ⟨sh, hi, slo, li, hfind, hh1, hh2, hh3, hl1, hl2, hl3, hhiv, hliv, hbound⟩ :=
    swings_max_min cexDf 200 hlen
  have h100 : (100 : ℚ) ≤ sh := by
    have hb := (hbound 0 (by omega) (by omega) (by omega)).1
    have h0 : (cexDf.getD 0 default).high = 100 := rfl
    rw [h0] at hb
    exact hb
  have hsh : sh = 100 := by
    rcases Nat.eq_zero_or_pos hi with h0 | hpos
    · rw [← hhiv, h0]
      rfl
    · exfalso
      rw [← hhiv, cexDf_tail_high hi hpos hh2] at h100
      norm_num at h100
  exact ⟨sh, hi, slo, li, hfind, hsh, cexDf_tail_high, by norm_num⟩

/-- Claim C8 as amended: for every bar index i inside the dataframe, the
locator inspects the trailing window of at most SWING_LOOKBACK + 1 bars
from max(0, i - SWING_LOOKBACK) to i inclusive and returns the maximum
high and the minimum low over exactly that window, each together with an
index attaining it. -/
theorem swing_window_bounds (df : List Row) (idx : ℕ) (h : idx < df.length) :
    ∃ sh hi slo li,
      find_recent_swings df idx SWING_LOOKBACK = some (sh, hi, slo, li)
    ∧ idx - SWING_LOOKBACK ≤ hi ∧ hi ≤ idx ∧ hi < df.length
    ∧ idx - SWING_LOOKBACK ≤ li ∧ li ≤ idx ∧ li < df.length
    ∧ (df.getD hi default).high = sh
    ∧ (df.getD li default).low = slo
    ∧ (∀ j, idx - SWING_LOOKBACK ≤ j → j ≤ idx → j < df.length →
        (df.getD j default).high ≤ sh ∧ slo ≤ (df.getD j default).low) :=
  swings_max_min df idx h

/-- Witness for the amended claim C8 at a concrete one-bar input. -/
theorem swing_window_bounds_w :
    0 < wDf10.length
  ∧ (∃ sh hi slo li,
      find_recent_swings wDf10 0 SWING_LOOKBACK = some (sh, hi, slo, li)
    ∧ 0 - SWING_LOOKBACK ≤ hi ∧ hi ≤ 0 ∧ hi < wDf10.length
    ∧ 0 - SWING_LOOKBACK ≤ li ∧ li ≤ 0 ∧ li < wDf10.length
    ∧ (wDf10.getD hi default).high = sh
    ∧ (wDf10.getD li default).low = slo
    ∧ (∀ j, 0 - SWING_LOOKBACK ≤ j → j ≤ 0 → j < wDf10.length →
        (wDf10.getD j default).high ≤ sh ∧ slo ≤ (wDf10.getD j default).low)) :=
  ⟨by decide, swing_window_bounds wDf10 0 (by decide)⟩

theorem swings_bound_at_idx (df : List Row) (idx : ℕ) (h : idx < df.length)
    (sh : ℚ) (hi : ℕ) (slo : ℚ) (li : ℕ)
    (hfind : find_recent_swings df idx SWING_LOOKBACK = some (sh, hi, slo, li)) :
    slo ≤ (df.getD idx default).low ∧ (df.getD idx default).high ≤ sh := by
  obtain ⟨sh2, hi2, slo2, li2, hfind2, h2⟩ := swings_max_min df idx h
  have he : ((sh, hi, slo, li) : ℚ × ℕ × ℚ × ℕ) = (sh2, hi2, slo2, li2) :=
    Option.some.inj (hfind.symm.trans hfind2)
  simp only [Prod.mk.injEq] at he
  obtain ⟨e1, e2, e3, e4⟩ := he
  subst e1
  subst e2
  subst e3
  subst e4
  have hb := (h2.2.2.2.2.2.2.2.2 idx (by omega) (le_refl _) h)
  exact ⟨hb.2, hb.1⟩

theorem checkSignal_inv (price sh slo atr : ℚ) (rsi : Option ℚ) (e50 e200 : ℚ)
    (levels : List (ℚ × ℚ)) (sig : Signal)
    (h : checkSignal price sh slo atr rsi e50 e200 levels = some sig) :
    (buyCond rsi e50 e200 = true ∧ sig = mkBuySignal price slo atr sig.lvl)
  ∨ (sellCond rsi e50 e200 = true ∧ sig = mkSellSignal price sh atr sig.lvl) := by
  induction levels with
  | nil => simp [checkSignal] at h
  | cons p rest ih =>
    obtain ⟨lvl, lvl_val⟩ := p
    by_cases ht : touched_level price lvl_val = true
    · simp only [checkSignal, if_pos ht] at h
      by_cases hb : buyCond rsi e50 e200 = true
      · rw [if_pos hb] at h
        obtain rfl := Option.some.inj h
        exact Or.inl ⟨hb, rfl⟩
      · rw [if_neg hb] at h
        by_cases hs : sellCond rsi e50 e200 = true
        · rw [if_pos hs] at h
          obtain rfl := Option.some.inj h
          exact Or.inr ⟨hs, rfl⟩
        · rw [if_neg hs] at h
          exact ih h
    · simp only [checkSignal, if_neg ht] at h
      exact ih h

/-- Claim C10: at a bar with well-formed OHLC (low at most close at most
high) and positive ATR, every generated BUY signal satisfies
stop < entry < target and every SELL signal satisfies
target < entry < stop; consequently the BUY forward scan coincides with
the scan lacking the stop-above-entry exit branch, both from the initial
stop and through the breakeven move, so that branch is unreachable. -/
theorem signal_geometry_and_dead_branch (df : List Row) (idx : ℕ)
    (sh : ℚ) (hi : ℕ) (slo : ℚ) (li : ℕ) (sig : Signal)
    (hidx : idx < df.length)
    (hsw : find_recent_swings df idx SWING_LOOKBACK = some (sh, hi, slo, li))
    (hlc : (df.getD idx default).low ≤ (df.getD idx default).close)
    (hch : (df.getD idx default).close ≤ (df.getD idx default).high)
    (hatr : 0 < (df.getD idx default).atr)
    (hsig : checkSignal (df.getD idx default).close sh slo
        (df.getD idx default).atr (df.getD idx default).rsi
        (df.getD idx default).ema50 (df.getD idx default).ema200
        (compute_fib_levels sh slo) = some sig) :
    (sig.side = Side.BUY → sig.sl < sig.entry ∧ sig.entry < sig.tp)
  ∧ (sig.side = Side.SELL → sig.tp < sig.entry ∧ sig.entry < sig.sl)
  ∧ (sig.side = Side.BUY → ∀ (lots : ℚ) (bars : List Row),
      scanTrade Side.BUY sig.entry sig.tp lots ⟨sig.sl, false⟩ bars
        = buyScanClaimed sig.entry sig.tp lots ⟨sig.sl, false⟩ bars) := by
  obtain ⟨hlow, hhigh⟩ := swings_bound_at_idx df idx hidx sh hi slo li hsw
  rcases checkSignal_inv _ _ _ _ _ _ _ _ _ hsig with ⟨hb, hsigeq⟩ | ⟨hs, hsigeq⟩
  · have hside : sig.side = Side.BUY := by rw [hsigeq]; rfl
    have hentry : sig.entry = (df.getD idx default).close := by rw [hsigeq]; rfl
    have hsl : sig.sl = slo - (1 / 2) * (df.getD idx default).atr := by
      rw [hsigeq]; rfl
    have htp : sig.tp = sig.entry + (sig.entry - sig.sl) * RR := by
      rw [hsigeq]; rfl
    have h1 : sig.sl < sig.entry := by
      rw [hsl, hentry]
      linarith
    have h2 : sig.entry < sig.tp := by
      rw [htp]
      have hmul : 0 < (sig.entry - sig.sl) * RR :=
        mul_pos (sub_pos.mpr h1) (by norm_num [RR])
      linarith
    refine ⟨fun _ => ⟨h1, h2⟩, ?_, fun _ lots bars => ?_⟩
    · intro hcon
      rw [hside] at hcon
      exact absurd hcon (by simp)
    · exact buyScan_eq_of_sl_le sig.entry sig.tp lots bars ⟨sig.sl, false⟩ (le_of_lt h1)
  · have hside : sig.side = Side.SELL := by rw [hsigeq]; rfl
    have hentry : sig.entry = (df.getD idx default).close := by rw [hsigeq]; rfl
    have hsl : sig.sl = sh + (1 / 2) * (df.getD idx default).atr := by
      rw [hsigeq]; rfl
    have htp : sig.tp = sig.entry - (sig.sl - sig.entry) * RR := by
      rw [hsigeq]; rfl
    have h1 : sig.entry < sig.sl := by
      rw [hsl, hentry]
      linarith
    have h2 : sig.tp < sig.entry := by
      rw [htp]
      have hmul : 0 < (sig.sl - sig.entry) * RR :=
        mul_pos (sub_pos.mpr h1) (by norm_num [RR])
      linarith
    refine ⟨?_, fun _ => ⟨h2, h1⟩, ?_⟩
    · intro hcon
      rw [hside] at hcon
      exact absurd hcon (by simp)
    · intro hcon
      rw [hside] at hcon
      exact absurd hcon (by simp)

/-- Witness for claim C10 at the concrete one-bar dataframe wDf10. -/
theorem signal_geometry_and_dead_branch_w :
    (checkSignal (wDf10.getD 0 default).close 100 0 (wDf10.getD 0 default).atr
        (wDf10.getD 0 default).rsi (wDf10.getD 0 default).ema50
        (wDf10.getD 0 default).ema200 (compute_fib_levels 100 0)
      = some (mkBuySignal (191 / 5) 0 1 (618 / 1000)))
  ∧ (((mkBuySignal (191 / 5) 0 1 (618 / 1000)).side = Side.BUY →
        (mkBuySignal (191 / 5) 0 1 (618 / 1000)).sl
            < (mkBuySignal (191 / 5) 0 1 (618 / 1000)).entry
        ∧ (mkBuySignal (191 / 5) 0 1 (618 / 1000)).entry
            < (mkBuySignal (191 / 5) 0 1 (618 / 1000)).tp)
    ∧ ((mkBuySignal (191 / 5) 0 1 (618 / 1000)).side = Side.SELL →
        (mkBuySignal (191 / 5) 0 1 (618 / 1000)).tp
            < (mkBuySignal (191 / 5) 0 1 (618 / 1000)).entry
        ∧ (mkBuySignal (191 / 5) 0 1 (618 / 1000)).entry
            < (mkBuySignal (191 / 5) 0 1 (618 / 1000)).sl)
    ∧ ((mkBuySignal (191 / 5) 0 1 (618 / 1000)).side = Side.BUY →
        ∀ (lots : ℚ) (bars : List Row),
          scanTrade Side.BUY (mkBuySignal (191 / 5) 0 1 (618 / 1000)).entry
              (mkBuySignal (191 / 5) 0 1 (618 / 1000)).tp lots
              ⟨(mkBuySignal (191 / 5) 0 1 (618 / 1000)).sl, false⟩ bars
            = buyScanClaimed (mkBuySignal (191 / 5) 0 1 (618 / 1000)).entry
              (mkBuySignal (191 / 5) 0 1 (618 / 1000)).tp lots
              ⟨(mkBuySignal (191 / 5) 0 1 (618 / 1000)).sl, false⟩ bars)) :=
  ⟨by norm_num [wDf10, checkSignal, compute_fib_levels, FIB_LEVELS, touched_level,
      FIB_TOL_PCT, buyCond, RSI_OVERSOLD, mkBuySignal],
   signal_geometry_and_dead_branch wDf10 0 100 0 0 0
     (mkBuySignal (191 / 5) 0 1 (618 / 1000))
     (by norm_num [wDf10])
     (by decide)
     (by norm_num [wDf10])
     (by norm_num [wDf10])
     (by norm_num [wDf10])
     (by norm_num [wDf10, checkSignal, compute_fib_levels, FIB_LEVELS, touched_level,
        FIB_TOL_PCT, buyCond, RSI_OVERSOLD, mkBuySignal])⟩

theorem sumPnl_append (l : List Trade) (t : Trade) :
    sumPnl (l ++ [t]) = sumPnl l + t.pnl := by
  simp [sumPnl]

theorem dailyReset_equity_trades (day : ℕ) (s : EngineState) :
    (dailyReset day s).equity = s.equity ∧ (dailyReset day s).trades = s.trades := by
  unfold dailyReset
  split
  · exact ⟨rfl, rfl⟩
  · exact ⟨rfl, rfl⟩

theorem tradeStep_equity_inv (df : List Row) (init : ℚ) (idx : ℕ) (row : Row)
    (day : ℕ) (sig : Signal) (lots : ℚ) (s : EngineState)
    (h : s.equity = init + sumPnl s.trades) :
    (tradeStep df init idx row day sig lots s).equity
      = init + sumPnl (tradeStep df init idx row day sig lots s).trades := by
  show s.equity + (simulate_trade df idx sig lots row).pnl
      = init + sumPnl (s.trades ++ [simulate_trade df idx sig lots row])
  rw [sumPnl_append, h]
  ring

set_option maxRecDepth 4000 in
theorem stepBar_equity_inv (df : List Row) (init : ℚ) (idx : ℕ) (row : Row)
    (s : EngineState) (h : s.equity = init + sumPnl s.trades) :
    (stepBar df init idx row s).equity
      = init + sumPnl (stepBar df init idx row s).trades := by
  have hres : (dailyReset row.day s).equity
      = init + sumPnl (dailyReset row.day s).trades := by
    obtain ⟨h1, h2⟩ := dailyReset_equity_trades row.day s
    rw [h1, h2]
    exact h
  simp only [stepBar]
  split
  · exact h
  split
  · exact hres
  split
  · exact hres
  split
  · exact hres
  split
  · exact hres
  split
  · exact hres
  exact tradeStep_equity_inv df init idx row row.day _ _ _ hres

theorem runAux_equity_inv (df : List Row) (init : ℚ) :
    ∀ (rows : List Row) (idx : ℕ) (s : EngineState),
      s.equity = init + sumPnl s.trades →
      (runAux df init idx rows s).equity
        = init + sumPnl (runAux df init idx rows s).trades := by
  intro rows
  induction rows with
  | nil =>
    intro idx s h
    exact h
  | cons r rest ih =>
    intro idx s h
    exact ih (idx + 1) _ (stepBar_equity_inv df init idx r s h)

/-- Claim C7: after any number of processed bars the engine equity equals
the initial equity plus the summed realized profits of the trades logged
so far — equity changes only through realized trade profit, never through
open-position marking; in particular the full run satisfies the same
running-sum identity, and the full run is the prefix run at the full
length. -/
theorem equity_is_initial_plus_realized (df : List Row) (initial_equity : ℚ)
    (n : ℕ) :
    (runUpTo df initial_equity n).equity
      = initial_equity + sumPnl (runUpTo df initial_equity n).trades
  ∧ (run_backtest df initial_equity).equity
      = initial_equity + sumPnl (run_backtest df initial_equity).trades
  ∧ run_backtest df initial_equity = runUpTo df initial_equity df.length := by
  have hinit : (initState initial_equity).equity
      = initial_equity + sumPnl (initState initial_equity).trades := by
    simp [initState, sumPnl]
  refine ⟨runAux_equity_inv df initial_equity _ 0 _ hinit,
    runAux_equity_inv df initial_equity _ 0 _ hinit, ?_⟩
  unfold run_backtest runUpTo
  rw [List.take_length]

theorem countDay_append_self (trades : List Trade) (t : Trade) (d : ℕ)
    (h : t.entry_day = d) :
    countDay (trades ++ [t]) d = countDay trades d + 1 := by
  simp [countDay, List.filter_append, h]

theorem countDay_append_ne (trades : List Trade) (t : Trade) (d : ℕ)
    (h : t.entry_day ≠ d) :
    countDay (trades ++ [t]) d = countDay trades d := by
  simp [countDay, List.filter_append, h]

theorem dayPnlList_append_self (trades : List Trade) (t : Trade) (d : ℕ)
    (h : t.entry_day = d) :
    dayPnlList (trades ++ [t]) d = dayPnlList trades d ++ [t.pnl] := by
  simp [dayPnlList, List.filter_append, h]

theorem dayPnlList_append_ne (trades : List Trade) (t : Trade) (d : ℕ)
    (h : t.entry_day ≠ d) :
    dayPnlList (trades ++ [t]) d = dayPnlList trades d := by
  simp [dayPnlList, List.filter_append, h]

theorem dayPnlList_length (trades : List Trade) (d : ℕ) :
    (dayPnlList trades d).length = countDay trades d := by
  simp [dayPnlList, countDay]

theorem countDay_eq_zero : ∀ (trades : List Trade) (d : ℕ),
    (∀ t ∈ trades, t.entry_day ≠ d) → countDay trades d = 0 := by
  intro trades d
  induction trades with
  | nil =>
    intro _
    rfl
  | cons t rest ih =>
    intro h
    have h1 : (t.entry_day == d) = false := by
      simpa using h t (List.mem_cons_self t rest)
    simp only [countDay, List.filter_cons, h1, Bool.false_eq_true, if_neg,
      not_false_eq_true]
    exact ih (fun t2 ht2 => h t2 (List.mem_cons_of_mem t ht2))

theorem simulate_trade_entry_day (df : List Row) (idx : ℕ) (sig : Signal)
    (lots : ℚ) (row : Row) :
    (simulate_trade df idx sig lots row).entry_day = row.day := by
  simp only [simulate_trade]
  split
  · rfl
  · rfl

theorem dailyReset_last (day : ℕ) (s : EngineState) :
    (dailyReset day s).last_trade_day = some day := by
  by_cases h : s.last_trade_day ≠ some day
  · simp [dailyReset, h]
  · push_neg at h
    simp [dailyReset, h]

theorem tradeStep_daily_inv (df : List Row) (init : ℚ) (idx : ℕ) (r : Row)
    (sig : Signal) (lots : ℚ) (s : EngineState)
    (hI : DailyInv init s)
    (hlast : s.last_trade_day = some r.day)
    (hg1 : lookupBool s.daily_loss_stop r.day = false)
    (hg2 : lookupNat s.daily_trades r.day < DAILY_MAX_TRADES) :
    DailyInv init (tradeStep df init idx r r.day sig lots s) := by
  obtain ⟨hA, hB, hC, hD, hE0, hE1⟩ := hI
  have htrday : (simulate_trade df idx sig lots r).entry_day = r.day :=
    simulate_trade_entry_day df idx sig lots r
  have ht1 : (tradeStep df init idx r r.day sig lots s).trades
      = s.trades ++ [simulate_trade df idx sig lots r] := rfl
  have ht2 : (tradeStep df init idx r r.day sig lots s).daily_trades
      = (r.day, lookupNat s.daily_trades r.day + 1) :: s.daily_trades := rfl
  have ht3 : (tradeStep df init idx r r.day sig lots s).daily_loss_stop
      = if dayPnl (s.trades ++ [simulate_trade df idx sig lots r]) r.day
          ≤ -(init * DAILY_MAX_LOSS_PCT) then
          (r.day, true) :: s.daily_loss_stop
        else s.daily_loss_stop := rfl
  have ht4 : (tradeStep df init idx r r.day sig lots s).last_trade_day
      = s.last_trade_day := rfl
  refine ⟨?_, ?_, ?_, ?_, ?_, ?_⟩
  · -- counter dict agrees with log
    intro d
    rw [ht2, ht1]
    by_cases hd : r.day = d
    · subst hd
      rw [countDay_append_self s.trades _ r.day htrday]
      simp [lookupNat, hA r.day]
    · rw [countDay_append_ne s.trades _ d (by rw [htrday]; exact hd)]
      simp only [lookupNat, if_neg hd]
      exact hA d
  · -- clear flag still means all partial sums above threshold
    intro d hflag j hj1 hj2
    rw [ht3] at hflag
    rw [ht1] at hj2 ⊢
    by_cases hloss : dayPnl (s.trades ++ [simulate_trade df idx sig lots r]) r.day
        ≤ -(init * DAILY_MAX_LOSS_PCT)
    · rw [if_pos hloss] at hflag
      by_cases hd : r.day = d
      · subst hd
        simp [lookupBool] at hflag
      · simp only [lookupBool, if_neg hd] at hflag
        rw [dayPnlList_append_ne s.trades _ d (by rw [htrday]; exact hd)] at hj2 ⊢
        exact hB d hflag j hj1 hj2
    · rw [if_neg hloss] at hflag
      by_cases hd : r.day = d
      · subst hd
        rw [dayPnlList_append_self s.trades _ r.day htrday] at hj2 ⊢
        rw [List.length_append, List.length_singleton] at hj2
        rcases Nat.lt_or_ge j ((dayPnlList s.trades r.day).length + 1) with hj3 | hj3
        · have hj4 : j ≤ (dayPnlList s.trades r.day).length := by omega
          rw [List.take_append_eq_append_take,
            show j - (dayPnlList s.trades r.day).length = 0 by omega,
            List.take_zero, List.append_nil]
          exact hB r.day hflag j hj1 hj4
        · have hj5 : j = (dayPnlList s.trades r.day).length + 1 := by omega
          rw [hj5, show (dayPnlList s.trades r.day).length + 1
              = (dayPnlList s.trades r.day ++ [(simulate_trade df idx sig lots r).pnl]).length
              by simp, List.take_length]
          have : -(init * DAILY_MAX_LOSS_PCT)
              < dayPnl (s.trades ++ [simulate_trade df idx sig lots r]) r.day :=
            lt_of_not_le hloss
          rw [dayPnl, dayPnlList_append_self s.trades _ r.day htrday] at this
          exact this
      · rw [dayPnlList_append_ne s.trades _ d (by rw [htrday]; exact hd)] at hj2 ⊢
        exact hB d hflag j hj1 hj2
  · -- daily cap
    intro d
    rw [ht1]
    by_cases hd : r.day = d
    · subst hd
      rw [countDay_append_self s.trades _ r.day htrday]
      have := hA r.day
      omega
    · rw [countDay_append_ne s.trades _ d (by rw [htrday]; exact hd)]
      exact hC d
  · -- proper partial sums above threshold
    intro d j hj1 hj2
    rw [ht1] at hj2 ⊢
    by_cases hd : r.day = d
    · subst hd
      rw [dayPnlList_append_self s.trades _ r.day htrday] at hj2 ⊢
      rw [List.length_append, List.length_singleton] at hj2
      have hj4 : j ≤ (dayPnlList s.trades r.day).length := by omega
      rw [List.take_append_eq_append_take,
        show j - (dayPnlList s.trades r.day).length = 0 by omega,
        List.take_zero, List.append_nil]
      exact hB r.day hg1 j hj1 hj4
    · rw [dayPnlList_append_ne s.trades _ d (by rw [htrday]; exact hd)] at hj2 ⊢
      exact hD d j hj1 hj2
  · -- last date still set
    intro h
    rw [ht4, hlast] at h
    exact absurd h (by simp)
  · -- all entry dates at most the current date
    intro d0 h t ht
    rw [ht4, hlast] at h
    obtain rfl : r.day = d0 := Option.some.inj h
    rw [ht1] at ht
    rcases List.mem_append.mp ht with h2 | h2
    · exact hE1 r.day hlast t h2
    · rw [List.mem_singleton.mp h2, htrday]

set_option maxRecDepth 4000 in
theorem stepBar_daily_inv (df : List Row) (init : ℚ) (idx : ℕ) (r : Row)
    (s : EngineState)
    (hF : ∀ d0, s.last_trade_day = some d0 → d0 ≤ r.day)
    (hI : DailyInv init s) :
    DailyInv init (stepBar df init idx r s)
  ∧ ((stepBar df init idx r s).last_trade_day = s.last_trade_day
     ∨ (stepBar df init idx r s).last_trade_day = some r.day) := by
  obtain ⟨hA, hB, hC, hD, hE0, hE1⟩ := hI
  by_cases hw : idx < ATR_PERIOD ∨ idx < EMA_SLOW
  · have hs : stepBar df init idx r s = flatStep r s := by
      simp only [stepBar, if_pos hw]
    rw [hs]
    exact ⟨⟨hA, hB, hC, hD, hE0, hE1⟩, Or.inl rfl⟩
  · have hs1last : (dailyReset r.day s).last_trade_day = some r.day :=
      dailyReset_last r.day s
    have htrades1 : (dailyReset r.day s).trades = s.trades :=
      (dailyReset_equity_trades r.day s).2
    have hball : ∀ t ∈ s.trades, t.entry_day ≤ r.day := by
      intro t ht
      cases hl : s.last_trade_day with
      | none =>
        rw [hE0 hl] at ht
        exact absurd ht (List.not_mem_nil t)
      | some d0 => exact le_trans (hE1 d0 hl t ht) (hF d0 hl)
    have hI1 : DailyInv init (dailyReset r.day s) := by
      by_cases hr : s.last_trade_day ≠ some r.day
      · have hs1 : dailyReset r.day s =
            { s with daily_trades := (r.day, 0) :: s.daily_trades,
                     daily_loss_stop := (r.day, false) :: s.daily_loss_stop,
                     last_trade_day := some r.day } := by
          simp [dailyReset, hr]
        have hcd0 : countDay s.trades r.day = 0 := by
          apply countDay_eq_zero
          intro t ht heq
          cases hl : s.last_trade_day with
          | none =>
            rw [hE0 hl] at ht
            exact absurd ht (List.not_mem_nil t)
          | some d0 =>
            have h1 := hE1 d0 hl t ht
            have h2 := hF d0 hl
            have h3 : d0 = r.day := le_antisymm h2 (heq ▸ h1)
            rw [hl, h3] at hr
            exact hr rfl
        rw [hs1]
        refine ⟨?_, ?_, hC, hD, ?_, ?_⟩
        · intro d
          by_cases hd : r.day = d
          · subst hd
            simp [lookupNat, hcd0]
          · simp only [lookupNat, if_neg hd]
            exact hA d
        · intro d hflag j hj1 hj2
          by_cases hd : r.day = d
          · subst hd
            rw [dayPnlList_length, hcd0] at hj2
            omega
          · simp only [lookupBool, if_neg hd] at hflag
            exact hB d hflag j hj1 hj2
        · intro h
          exact absurd h (by simp)
        · intro d0 h t ht
          obtain rfl : r.day = d0 := Option.some.inj h
          exact hball t ht
      · push_neg at hr
        have hs1 : dailyReset r.day s = s := by
          simp [dailyReset, hr]
        rw [hs1]
        exact ⟨hA, hB, hC, hD, hE0, hE1⟩
    obtain ⟨hA1, hB1, hC1, hD1, hE01, hE11⟩ := hI1
    have hflatI : DailyInv init (flatStep r (dailyReset r.day s)) :=
      ⟨hA1, hB1, hC1, hD1, hE01, hE11⟩
    have hflatlast : (flatStep r (dailyReset r.day s)).last_trade_day
        = some r.day := hs1last
    simp only [stepBar, if_neg hw]
    by_cases hg1 : lookupBool (dailyReset r.day s).daily_loss_stop r.day = true
    · rw [if_pos hg1]
      exact ⟨hflatI, Or.inr hflatlast⟩
    · rw [if_neg hg1]
      by_cases hg2 : DAILY_MAX_TRADES ≤ lookupNat (dailyReset r.day s).daily_trades r.day
      · rw [if_pos hg2]
        exact ⟨hflatI, Or.inr hflatlast⟩
      · rw [if_neg hg2]
        rcases hsw : find_recent_swings df idx SWING_LOOKBACK with _ | ⟨sh, hi, slo, li⟩
        · simp only [hsw]
          exact ⟨hflatI, Or.inr hflatlast⟩
        · simp only [hsw]
          rcases hsig : checkSignal r.close sh slo r.atr r.rsi r.ema50 r.ema200
              (compute_fib_levels sh slo) with _ | sig
          · simp only [hsig]
            exact ⟨hflatI, Or.inr hflatlast⟩
          · simp only [hsig]
            by_cases hlots : calc_lots_from_risk (dailyReset r.day s).equity
                sig.entry sig.sl ≤ 0
            · rw [if_pos hlots]
              exact ⟨hflatI, Or.inr hflatlast⟩
            · rw [if_neg hlots]
              refine ⟨tradeStep_daily_inv df init idx r sig _ (dailyReset r.day s)
                ⟨hA1, hB1, hC1, hD1, hE01, hE11⟩ hs1last ?_ ?_, Or.inr hs1last⟩
              · simpa using hg1
              · omega

theorem runAux_daily_inv (df : List Row) (init : ℚ) :
    ∀ (rows : List Row) (idx : ℕ) (s : EngineState),
      List.Pairwise (fun a b : Row => a.day ≤ b.day) rows →
      (∀ d0, s.last_trade_day = some d0 → ∀ r2 ∈ rows, d0 ≤ r2.day) →
      DailyInv init s →
      DailyInv init (runAux df init idx rows s) := by
  intro rows
  induction rows with
  | nil =>
    intro idx s _ _ hI
    exact hI
  | cons r rest ih =>
    intro idx s hpw hF hI
    obtain ⟨hpw1, hpw2⟩ := List.pairwise_cons.mp hpw
    have hFr : ∀ d0, s.last_trade_day = some d0 → d0 ≤ r.day := fun d0 h =>
      hF d0 h r (List.mem_cons_self r rest)
    obtain ⟨hI2, hlast2⟩ := stepBar_daily_inv df init idx r s hFr hI
    apply ih (idx + 1) _ hpw2 ?_ hI2
    intro d0 h r2 hr2
    rcases hlast2 with he | he
    · rw [he] at h
      exact hF d0 h r2 (List.mem_cons_of_mem r hr2)
    · rw [he] at h
      obtain rfl : r.day = d0 := Option.some.inj h
      exact hpw1 r2 hr2

/-- Claim C6: on chronologically ordered input (dates non-decreasing), at
most DAILY_MAX_TRADES trades are entered on any calendar date, and on
each date every trade-boundary partial sum of that date except possibly
the one produced by its last trade sits strictly above the loss-stop
threshold — that is, no trade is ever entered on a date once the date
cumulative realized loss has reached DAILY_MAX_LOSS_PCT times the initial
equity.  Both gates sit structurally before the signal loop in the
embedded per-bar step. -/
theorem daily_limits_enforced (df : List Row) (initial_equity : ℚ)
    (hdays : List.Pairwise (fun a b : Row => a.day ≤ b.day) df) :
    (∀ d, countDay (run_backtest df initial_equity).trades d ≤ DAILY_MAX_TRADES)
  ∧ (∀ d j, 0 < j →
      j < (dayPnlList (run_backtest df initial_equity).trades d).length →
      -(initial_equity * DAILY_MAX_LOSS_PCT)
        < ((dayPnlList (run_backtest df initial_equity).trades d).take j).sum) := by
  have hinit : DailyInv initial_equity (initState initial_equity) := by
    refine ⟨fun d => rfl, ?_, ?_, ?_, fun _ => rfl, ?_⟩
    · intro d _ j hj1 hj2
      simp [dayPnlList, initState] at hj2
      omega
    · intro d
      simp [countDay, initState, DAILY_MAX_TRADES]
    · intro d j hj1 hj2
      simp [dayPnlList, initState] at hj2
    · intro d0 h
      simp [initState] at h
  have h := runAux_daily_inv df initial_equity df 0 (initState initial_equity)
    hdays (fun d0 h0 => by simp [initState] at h0) hinit
  exact ⟨h.2.2.1, h.2.2.2.1⟩

/-- Witness for claim C6 at a concrete one-bar input. -/
theorem daily_limits_enforced_w :
    List.Pairwise (fun a b : Row => a.day ≤ b.day) wDf10
  ∧ ((∀ d, countDay (run_backtest wDf10 10000).trades d ≤ DAILY_MAX_TRADES)
    ∧ (∀ d j, 0 < j →
        j < (dayPnlList (run_backtest wDf10 10000).trades d).length →
        -((10000 : ℚ) * DAILY_MAX_LOSS_PCT)
          < ((dayPnlList (run_backtest wDf10 10000).trades d).take j).sum)) :=
  ⟨by simp [wDf10], daily_limits_enforced wDf10 10000 (by simp [wDf10])⟩

end CryptoBot
